import Mathlib

/-!
Shallow embedding of the TaskFlow task-state engine (`src/scripts/app.js`).

The store state is the pair of the in-memory task list and the id counter,
together with the current view configuration (filter, sort key, search query).
Timestamps (`createdAt`, `completedAt`, the ambient clock `new Date()`) are
modelled as natural numbers (milliseconds since the epoch); the code only ever
compares them numerically (`new Date(x) - new Date(y)`) or for calendar
equality, so this is faithful for the properties below.  `null` becomes
`Option.none`.  DOM reads (input values, `prompt`, `confirm`) become explicit
arguments; `showNotification` calls become returned `Notif` values.
-/

namespace TaskFlow

/-- Whitespace characters removed by JavaScript `String.prototype.trim`
(the ASCII ones plus NBSP; the code only ever trims user-typed task text). -/
def jsIsWhite (c : Char) : Bool :=
  c = ' ' || c = '\t' || c = '\n' || c = '\r' ||
  c = Char.ofNat 11 || c = Char.ofNat 12 || c = Char.ofNat 160

/-- JavaScript `s.trim()`: drop whitespace from both ends. -/
def jsTrim (s : String) : String :=
  ⟨((s.toList.dropWhile jsIsWhite).reverse.dropWhile jsIsWhite).reverse⟩

/-- JavaScript `s.toLowerCase()` restricted to ASCII case mapping
(the only case mapping the proofs depend on). -/
def jsToLower (s : String) : String :=
  ⟨s.toList.map Char.toLower⟩

/-- Does `pat` occur at the head of `cs`? -/
def charsHasPre : List Char → List Char → Bool
  | [], _ => true
  | _ :: _, [] => false
  | a :: as, b :: bs => a = b && charsHasPre as bs

/-- Does `pat` occur anywhere in `cs`? -/
def charsIncl (pat : List Char) : List Char → Bool
  | [] => charsHasPre pat []
  | c :: cs => charsHasPre pat (c :: cs) || charsIncl pat cs

/-- JavaScript `s.includes(pat)`: substring test (empty pattern always true). -/
def strIncludes (s pat : String) : Bool :=
  charsIncl pat.toList s.toList

/-- Numeric value of a digit character in the given base, as JavaScript
`parseInt` accepts it (0-9, then a-z / A-Z), `none` if not a digit. -/
def digitVal (base : Nat) (c : Char) : Option Nat :=
  let v : Option Nat :=
    if '0' ≤ c ∧ c ≤ '9' then some (c.toNat - '0'.toNat)
    else if 'a' ≤ c ∧ c ≤ 'z' then some (c.toNat - 'a'.toNat + 10)
    else if 'A' ≤ c ∧ c ≤ 'Z' then some (c.toNat - 'A'.toNat + 10)
    else none
  match v with
  | some v => if v < base then some v else none
  | none => none

/-- Accumulate the value of the longest digit run at the head of `cs`. -/
def digitsAcc (base : Nat) : List Char → Nat → Nat
  | [], acc => acc
  | c :: cs, acc =>
    match digitVal base c with
    | some v => digitsAcc base cs (acc * base + v)
    | none => acc

/-- Parse the digit run at the head of `cs`; `none` (= NaN) if there is no
leading digit, exactly as `parseInt` behaves after sign/radix handling. -/
def digitsRun (base : Nat) (cs : List Char) : Option Nat :=
  match cs with
  | [] => none
  | c :: _ =>
    match digitVal base c with
    | some _ => some (digitsAcc base cs 0)
    | none => none

/-- JavaScript `parseInt(s)` (radix unspecified): skip leading whitespace,
optional sign, auto-detect a `0x` hex radix, parse the longest digit run.
`none` models `NaN`.  `parseInt` never throws. -/
def jsParseInt (s : String) : Option Int :=
  let cs := s.toList.dropWhile jsIsWhite
  let signed : Int × List Char :=
    match cs with
    | '-' :: rest => (-1, rest)
    | '+' :: rest => (1, rest)
    | _ => (1, cs)
  let based : Nat × List Char :=
    match signed.2 with
    | '0' :: 'x' :: rest => (16, rest)
    | '0' :: 'X' :: rest => (16, rest)
    | rest => (10, rest)
  (digitsRun based.1 based.2).map (fun n => signed.1 * (n : Int))

/-- A task record: the union of the fields the app's feature layers create
(`id`, `text`, `completed`, `createdAt`, `completedAt` always; `category`,
`priority`, `dueDate` per variant, `none` when absent). -/
structure Task where
  id : Int
  text : String
  category : Option String
  priority : Option String
  dueDate : Option String
  completed : Bool
  createdAt : Nat
  completedAt : Option Nat
deriving DecidableEq, Repr

/-- The in-memory store: `this.tasks`, `this.taskIdCounter`, and the view
configuration fields `this.currentFilter`, `this.currentSort`,
`this.searchQuery`. -/
structure StoreState where
  tasks : List Task
  taskIdCounter : Int
  currentFilter : String
  currentSort : String
  searchQuery : String
deriving DecidableEq, Repr

/-- Levels of `showNotification(message, type)`. -/
inductive NotifLevel where
  | success
  | error
  | warning
  | info
deriving DecidableEq, Repr

/-- One `showNotification` call. -/
structure Notif where
  message : String
  level : NotifLevel
deriving DecidableEq, Repr

/-- JavaScript `x || null` on a select value: empty string becomes null. -/
def jsOrNull (s : String) : Option String :=
  if s = "" then none else some s

/-- Result of `addTask`: the state afterwards, the created task (if any),
whether `saveTasks` was invoked, and the notification shown. -/
structure AddResult where
  state : StoreState
  created : Option Task
  saved : Bool
  notif : Notif
deriving Repr

/-- `addTask` (app.js 70-109): trim the input text; if empty, warn and leave
everything unchanged; otherwise build a task with id `taskIdCounter++`,
the selected category (`category || null`), `completed: false`,
`createdAt` now, `completedAt: null`, push it, and save. -/
def addTask (now : Nat) (rawText category : String) (s : StoreState) : AddResult :=
  let taskText := jsTrim rawText
  if taskText = "" then
    ⟨s, none, false, ⟨"Please enter a task description", .warning⟩⟩
  else
    let newTask : Task :=
      { id := s.taskIdCounter, text := taskText, category := jsOrNull category,
        priority := none, dueDate := none, completed := false,
        createdAt := now, completedAt := none }
    ⟨{ s with tasks := s.tasks ++ [newTask], taskIdCounter := s.taskIdCounter + 1 },
     some newTask, true, ⟨"Task added successfully!", .success⟩⟩

/-- `deleteTask` (app.js 111-125): behind a `confirm` prompt, drop every task
with the given id and save.  Second component: whether a save happened. -/
def deleteTask (confirmed : Bool) (id : Int) (s : StoreState) : StoreState × Bool :=
  if confirmed then
    ({ s with tasks := s.tasks.filter (fun t => !(t.id = id : Bool)) }, true)
  else (s, false)

/-- Core of `toggleTask`: flip the first task whose id matches, setting
`completedAt` to now when the task becomes completed and to null when it
becomes pending (`task.completedAt = task.completed ? now : null` after the
flip). -/
def toggleFirst (now : Nat) (id : Int) : List Task → List Task
  | [] => []
  | t :: ts =>
    if t.id = id then
      { t with completed := !t.completed,
               completedAt := if t.completed then none else some now } :: ts
    else t :: toggleFirst now id ts

/-- `toggleTask` (app.js 127-144): `find` the task by id; if absent, silent
no-op (no save); otherwise flip it and save. -/
def toggleTask (now : Nat) (id : Int) (s : StoreState) : StoreState × Bool :=
  if s.tasks.any (fun t => t.id = id) then
    ({ s with tasks := toggleFirst now id s.tasks }, true)
  else (s, false)

/-- Core of `editTask`: replace the text of the first task whose id matches. -/
def editFirst (newText : String) (id : Int) : List Task → List Task
  | [] => []
  | t :: ts =>
    if t.id = id then { t with text := newText } :: ts
    else t :: editFirst newText id ts

/-- `editTask` (app.js 146-163): if the task exists and the `prompt` response
is neither null nor blank after trimming, set the text to the trimmed
response and save; otherwise no-op. -/
def editTask (id : Int) (response : Option String) (s : StoreState) : StoreState × Bool :=
  if s.tasks.any (fun t => t.id = id) then
    match response with
    | some newText =>
      if jsTrim newText = "" then (s, false)
      else ({ s with tasks := editFirst (jsTrim newText) id s.tasks }, true)
    | none => (s, false)
  else (s, false)

/-- `clearAllTasks` (app.js 449-463): behind `confirm`, empty the collection
(the counter is untouched) and save. -/
def clearAllTasks (confirmed : Bool) (s : StoreState) : StoreState × Bool :=
  if confirmed then ({ s with tasks := [] }, true) else (s, false)

/-- `matchesSearch` (app.js 1415-1418): falsy (empty) stored query matches
everything, else substring test on the lowercased text.  The stored query is
whatever the search handler assigned (see `setSearchQuery`). -/
def matchesSearch (searchQuery : String) (t : Task) : Bool :=
  if searchQuery = "" then true
  else strIncludes (jsToLower t.text) searchQuery

/-- Search input handler (app.js 1266-1270): the raw input value is lowercased
— and not trimmed — before being stored as `this.searchQuery`. -/
def setSearchQuery (raw : String) (s : StoreState) : StoreState :=
  { s with searchQuery := jsToLower raw }

/-- `matchesFilter` (app.js 1420-1438): status filters, with a default case
returning true for any unrecognized filter string.  `recent` means created
within the last 24 hours of `now`. -/
def matchesFilter (now : Nat) (filter : String) (t : Task) : Bool :=
  if filter = "all" then true
  else if filter = "completed" then t.completed
  else if filter = "pending" then !t.completed
  else if filter = "recent" then now - t.createdAt < 24 * 60 * 60 * 1000
  else true

/-- `getFilteredTasks` (app.js 1440-1444): tasks passing both the search and
the status filter. -/
def getFilteredTasks (now : Nat) (s : StoreState) : List Task :=
  s.tasks.filter (fun t => matchesSearch s.searchQuery t && matchesFilter now s.currentFilter t)

/-- Comparator for `created-desc`: `new Date(b.createdAt) - new Date(a.createdAt)`. -/
def cmpCreatedDesc (a b : Task) : Int :=
  (b.createdAt : Int) - (a.createdAt : Int)

/-- Comparator for `created-asc`. -/
def cmpCreatedAsc (a b : Task) : Int :=
  (a.createdAt : Int) - (b.createdAt : Int)

/-- Three-way string comparison standing in for `localeCompare` (modelled as
code-point order). -/
def cmpText (a b : Task) : Int :=
  if a.text < b.text then -1 else if b.text < a.text then 1 else 0

/-- Comparator for `completion`: incomplete before completed, then newest
first (`a.completed - b.completed`, else the `created-desc` comparator). -/
def cmpCompletion (a b : Task) : Int :=
  if a.completed = b.completed then (b.createdAt : Int) - (a.createdAt : Int)
  else (if a.completed then 1 else 0) - (if b.completed then 1 else 0)

/-- JavaScript `array.sort(cmp)` on a copy: a stable sort placing `a` before
`b` whenever `cmp a b ≤ 0`. -/
def jsSortBy (cmp : Task → Task → Int) (ts : List Task) : List Task :=
  ts.mergeSort (fun a b => decide (cmp a b ≤ 0))

/-- `getSortedTasks` (app.js 1446-1466): dispatch on the sort key; the default
case returns the (copied) list unsorted. -/
def getSortedTasks (sortKey : String) (ts : List Task) : List Task :=
  if sortKey = "created-desc" then jsSortBy cmpCreatedDesc ts
  else if sortKey = "created-asc" then jsSortBy cmpCreatedAsc ts
  else if sortKey = "alphabetical" then jsSortBy cmpText ts
  else if sortKey = "completion" then jsSortBy cmpCompletion ts
  else ts

/-- The derived view `renderTasks` displays (app.js 1497-1498):
sorted(filtered(tasks)). -/
def getView (now : Nat) (s : StoreState) : List Task :=
  getSortedTasks s.currentSort (getFilteredTasks now s)

/-- View computation as an operation: it returns the view and leaves the
store state untouched (the sort runs on a copy, `[...filteredTasks]`). -/
def getViewOp (now : Nat) (s : StoreState) : List Task × StoreState :=
  (getView now s, s)

/-- `markAllCompleted` (app.js 1713-1731): complete every pending task among
the currently filtered ones, stamping `completedAt` with now; saves only when
at least one task was pending. -/
def markAllCompleted (now : Nat) (s : StoreState) : StoreState × Bool :=
  let isTarget : Task → Bool := fun t =>
    matchesSearch s.searchQuery t && matchesFilter now s.currentFilter t && !t.completed
  if (s.tasks.filter isTarget).isEmpty then (s, false)
  else
    ({ s with tasks := s.tasks.map (fun t =>
        if isTarget t then { t with completed := true, completedAt := some now } else t) },
     true)

/-- `deleteCompleted` (app.js 1733-1748): behind `confirm`, remove every
completed task; saves only when some completed task existed and the user
confirmed. -/
def deleteCompleted (confirmed : Bool) (s : StoreState) : StoreState × Bool :=
  if (s.tasks.filter (fun t => t.completed)).isEmpty then (s, false)
  else if confirmed then
    ({ s with tasks := s.tasks.filter (fun t => !t.completed) }, true)
  else (s, false)

/-- The mutation operations of the store, with the ambient inputs (clock,
input/select/prompt values, confirm answers) made explicit. -/
inductive MutOp where
  | add (now : Nat) (text category : String)
  | del (confirmed : Bool) (id : Int)
  | toggle (now : Nat) (id : Int)
  | edit (id : Int) (response : Option String)
  | clearAll (confirmed : Bool)
  | markAllCompleted (now : Nat)
  | deleteCompleted (confirmed : Bool)

/-- The in-memory effect of a mutation operation, paired with whether the
operation reaches its `saveTasks()` call. -/
def applyOp : MutOp → StoreState → StoreState × Bool
  | .add now text category, s =>
    let r := addTask now text category s
    (r.state, r.saved)
  | .del confirmed id, s => deleteTask confirmed id s
  | .toggle now id, s => toggleTask now id s
  | .edit id response, s => editTask id response s
  | .clearAll confirmed, s => clearAllTasks confirmed s
  | .markAllCompleted now, s => markAllCompleted now s
  | .deleteCompleted confirmed, s => deleteCompleted confirmed s

/-- The persistence adapter: the two localStorage keys hold (a lossless
serialization of) the task list and the counter; `writeFails` models
`setItem` throwing (quota exceeded, disabled storage). -/
structure SaveStore where
  saved : Option (List Task × Int)
  writeFails : Bool
deriving DecidableEq, Repr

/-- `saveTasks` (app.js 261-270): write both keys; on a throw, leave storage
as it was, log, and show the error-level notification.  The in-memory state
is not touched in either branch. -/
def saveTasks (s : StoreState) (st : SaveStore) : SaveStore × Option Notif :=
  if st.writeFails then
    (st, some ⟨"Failed to save tasks. Please check your browser storage.", .error⟩)
  else
    ({ st with saved := some (s.tasks, s.taskIdCounter) }, none)

/-- A full mutation operation: mutate in memory, then (when the operation's
code path calls it) `saveTasks`.  Returns the state, the storage, and the
save-failure notification if any. -/
def runOp (op : MutOp) (s : StoreState) (st : SaveStore) :
    StoreState × SaveStore × Option Notif :=
  let r := applyOp op s
  if r.2 then
    let w := saveTasks r.1 st
    (r.1, w.1, w.2)
  else (r.1, st, none)

/-- `loadTasks` (app.js 272-282): absent key (null) or an empty string (falsy)
gives the empty list without parsing; a parse exception is caught and also
gives the empty list.  `parse` abstracts `JSON.parse` on the tasks key
(`none` = throw). -/
def loadTasks (saved : Option String) (parse : String → Option (List Task)) : List Task :=
  match saved with
  | none => []
  | some s => if s = "" then [] else (parse s).getD []

/-- `getNextTaskId` (app.js 284-294): absent key or empty string gives 1;
otherwise `parseInt(saved)`, whose NaN result (`none`) escapes the
try/catch because `parseInt` never throws. -/
def getNextTaskId (saved : Option String) : Option Int :=
  match saved with
  | none => some 1
  | some s => if s = "" then some 1 else jsParseInt s

/-- Run a sequence of add operations (clock value, raw text, category per
call), collecting the created tasks in order. -/
def runAdds (s : StoreState) : List (Nat × String × String) → StoreState × List Task
  | [] => (s, [])
  | (now, txt, cat) :: rest =>
    let r := addTask now txt cat s
    let tail := runAdds r.state rest
    (tail.1, r.created.toList ++ tail.2)

/-- The flip `toggleTask` applies to the found task. -/
def flipTask (now : Nat) (t : Task) : Task :=
  { t with completed := !t.completed,
           completedAt := if t.completed then none else some now }

/-- Apply `f` to the first task in the list with the given id (the shape
shared by `toggleTask` and `editTask`, which mutate the task `find` returns). -/
def setFirst (f : Task → Task) (id : Int) : List Task → List Task
  | [] => []
  | t :: ts => if t.id = id then f t :: ts else t :: setFirst f id ts

/-- The `completedAt` invariant for a single task: `completedAt` is non-null
exactly when `completed` is true. -/
def completedOk (t : Task) : Prop :=
  t.completedAt.isSome = t.completed

/-- The `completedAt` invariant over the whole store. -/
def storeOk (s : StoreState) : Prop :=
  ∀ t ∈ s.tasks, completedOk t

/-- Agreement on every task field except `completed` and `completedAt`. -/
def sameFrame (a b : Task) : Prop :=
  a.id = b.id ∧ a.text = b.text ∧ a.createdAt = b.createdAt ∧
  a.category = b.category ∧ a.priority = b.priority ∧ a.dueDate = b.dueDate

/-- The search predicate as the spec words it (query trimmed and lowercased;
empty trimmed query matches everything) — stated for comparison with the
code's `matchesSearch` pipeline, which does not trim. -/
def specSearchMatch (query : String) (t : Task) : Bool :=
  jsToLower (jsTrim query) = "" ||
  strIncludes (jsToLower t.text) (jsToLower (jsTrim query))

/-- A three-task store used to instantiate the universally quantified
theorems below at a concrete input. -/
def witState : StoreState :=
  ⟨[⟨1, "Hello", none, none, none, false, 100, none⟩,
    ⟨2, "buy milk", some "shopping", none, none, true, 0, some 5⟩,
    ⟨3, "mid", none, none, none, false, 50, none⟩],
   4, "all", "created-desc", ""⟩

/-- The task `addTask` builds when the trimmed text is accepted. -/
def freshTask (now : Nat) (rawText category : String) (s : StoreState) : Task :=
  ⟨s.taskIdCounter, jsTrim rawText, jsOrNull category, none, none, false, now, none⟩

theorem addTask_of_empty (now : Nat) (rawText category : String) (s : StoreState)
    (h : jsTrim rawText = "") :
    addTask now rawText category s =
      ⟨s, none, false, ⟨"Please enter a task description", .warning⟩⟩ := by
  simp [addTask, h]

theorem addTask_of_nonempty (now : Nat) (rawText category : String) (s : StoreState)
    (h : jsTrim rawText ≠ "") :
    addTask now rawText category s =
      ⟨{ s with
           tasks := s.tasks ++ [freshTask now rawText category s],
           taskIdCounter := s.taskIdCounter + 1 },
       some (freshTask now rawText category s), true,
       ⟨"Task added successfully!", .success⟩⟩ := by
  simp [addTask, freshTask, h]

theorem runAdds_cons (s : StoreState) (now : Nat) (txt cat : String)
    (rest : List (Nat × String × String)) :
    runAdds s ((now, txt, cat) :: rest) =
      ((runAdds (addTask now txt cat s).state rest).1,
       (addTask now txt cat s).created.toList ++
         (runAdds (addTask now txt cat s).state rest).2) := rfl

theorem runAdds_id_lb (inputs : List (Nat × String × String)) :
    ∀ (s : StoreState), ∀ t ∈ (runAdds s inputs).2, s.taskIdCounter ≤ t.id := by
  induction inputs with
  | nil => intro s t ht; simp [runAdds] at ht
  | cons p rest ih =>
    intro s t ht
    obtain ⟨now, txt, cat⟩ := p
    rw [runAdds_cons] at ht
    by_cases h : jsTrim txt = ""
    · rw [addTask_of_empty now txt cat s h] at ht
      simp only [Option.toList_none, List.nil_append] at ht
      exact ih s t ht
    · rw [addTask_of_nonempty now txt cat s h] at ht
      simp only [Option.toList_some, List.cons_append, List.nil_append,
        List.mem_cons] at ht
      rcases ht with rfl | ht
      · exact le_refl _
      · have := ih _ t ht
        simp only [freshTask] at this
        omega

theorem runAdds_pairwise (inputs : List (Nat × String × String)) :
    ∀ (s : StoreState), ((runAdds s inputs).2).Pairwise (fun a b => a.id < b.id) := by
  induction inputs with
  | nil => intro s; simp [runAdds]
  | cons p rest ih =>
    intro s
    obtain ⟨now, txt, cat⟩ := p
    rw [runAdds_cons]
    by_cases h : jsTrim txt = ""
    · rw [addTask_of_empty now txt cat s h]
      simp only [Option.toList_none, List.nil_append]
      exact ih s
    · rw [addTask_of_nonempty now txt cat s h]
      simp only [Option.toList_some, List.cons_append, List.nil_append]
      refine List.Pairwise.cons ?_ (ih _)
      intro b hb
      have := runAdds_id_lb rest _ b hb
      simp only [freshTask] at this ⊢
      omega

/-- C1: along any sequence of `add` calls, the created tasks carry strictly
increasing (hence pairwise distinct) ids; whenever the trimmed text is
non-empty, `add` creates a task whose id is the current counter value,
increments the counter by exactly one, and appends the task. -/
theorem add_ids_strictly_increasing (s : StoreState) (inputs : List (Nat × String × String)) :
    ((runAdds s inputs).2).Pairwise (fun a b => a.id < b.id) ∧
    (((runAdds s inputs).2).map Task.id).Nodup ∧
    (∀ (now : Nat) (txt cat : String) (s' : StoreState), jsTrim txt ≠ "" →
      ∃ t : Task, (addTask now txt cat s').created = some t ∧
        t.id = s'.taskIdCounter ∧
        (addTask now txt cat s').state.taskIdCounter = s'.taskIdCounter + 1 ∧
        (addTask now txt cat s').state.tasks = s'.tasks ++ [t]) := by
  refine ⟨runAdds_pairwise inputs s, ?_, ?_⟩
  · exact List.pairwise_map.mpr ((runAdds_pairwise inputs s).imp (fun h => Int.ne_of_lt h))
  · intro now txt cat s' hne
    refine ⟨freshTask now txt cat s', ?_, rfl, ?_, ?_⟩
    · rw [addTask_of_nonempty now txt cat s' hne]
    · rw [addTask_of_nonempty now txt cat s' hne]
    · rw [addTask_of_nonempty now txt cat s' hne]

/-- Witness for C1 at a concrete store and input sequence. -/
theorem add_ids_strictly_increasing_witness :
    (((runAdds witState [(1, "x", ""), (2, "y", "work")]).2).Pairwise
      (fun a b => a.id < b.id)) ∧
    ((∃ t : Task, (addTask 7 " z " "" witState).created = some t ∧
        t.id = witState.taskIdCounter ∧
        (addTask 7 " z " "" witState).state.taskIdCounter = witState.taskIdCounter + 1 ∧
        (addTask 7 " z " "" witState).state.tasks = witState.tasks ++ [t])) := by
  obtain ⟨h1, _, h3⟩ := add_ids_strictly_increasing witState [(1, "x", ""), (2, "y", "work")]
  exact ⟨h1, h3 7 " z " "" witState (by decide)⟩

/-- C2: adding text that trims to empty leaves the state unchanged, reaches
no `saveTasks` call (so storage is untouched), and surfaces the validation
failure as the warning-level message. -/
theorem add_empty_text_rejected (now : Nat) (rawText category : String)
    (s : StoreState) (st : SaveStore) (h : jsTrim rawText = "") :
    (addTask now rawText category s).state = s ∧
    (addTask now rawText category s).saved = false ∧
    (addTask now rawText category s).notif =
      ⟨"Please enter a task description", .warning⟩ ∧
    runOp (.add now rawText category) s st = (s, st, none) := by
  have ha := addTask_of_empty now rawText category s h
  refine ⟨?_, ?_, ?_, ?_⟩ <;> simp [runOp, applyOp, ha]

/-- Witness for C2 at whitespace-only input. -/
theorem add_empty_text_rejected_witness :
    (addTask 5 "   " "work" witState).state = witState ∧
    (addTask 5 "   " "work" witState).saved = false ∧
    (addTask 5 "   " "work" witState).notif =
      ⟨"Please enter a task description", .warning⟩ ∧
    runOp (.add 5 "   " "work") witState ⟨none, false⟩ = (witState, ⟨none, false⟩, none) :=
  add_empty_text_rejected 5 "   " "work" witState ⟨none, false⟩ (by decide)

/-- C5 (code bug): when a localStorage key is absent or the tasks blob fails
to parse, the code does default to an empty collection and counter 1; but an
unparseable counter string makes `parseInt` return NaN (here `none`), which
escapes the try/catch, so the counter is NaN and not 1 as specified. -/
theorem load_defaults_but_counter_nan :
    loadTasks none (fun _ => none) = [] ∧
    loadTasks (some "corrupt") (fun _ => none) = [] ∧
    getNextTaskId none = some 1 ∧
    getNextTaskId (some "") = some 1 ∧
    getNextTaskId (some "oops") = none ∧
    getNextTaskId (some "oops") ≠ some 1 := by
  refine ⟨rfl, rfl, rfl, by decide, by decide, by decide⟩

/-- C6: every mutation operation computes its in-memory result before and
independently of the persistence write; when the operation saves and the
write fails, storage is left as it was and the failure is surfaced as the
error-level message, with no rollback of the in-memory state. -/
theorem write_failure_reported_no_rollback (op : MutOp) (s : StoreState) (st : SaveStore) :
    (runOp op s st).1 = (applyOp op s).1 ∧
    ((applyOp op s).2 = true → st.writeFails = true →
      (runOp op s st).2.1 = st ∧
      (runOp op s st).2.2 =
        some ⟨"Failed to save tasks. Please check your browser storage.", .error⟩) := by
  refine ⟨?_, ?_⟩
  · simp only [runOp]
    by_cases h : (applyOp op s).2 <;> simp [h]
  · intro hs hw
    simp [runOp, hs, saveTasks, hw]

/-- Witness for C6: clearing all tasks against failing storage. -/
theorem write_failure_reported_no_rollback_witness :
    (runOp (.clearAll true) witState ⟨none, true⟩).2.1 = (⟨none, true⟩ : SaveStore) ∧
    (runOp (.clearAll true) witState ⟨none, true⟩).2.2 =
      some ⟨"Failed to save tasks. Please check your browser storage.", .error⟩ :=
  (write_failure_reported_no_rollback (.clearAll true) witState ⟨none, true⟩).2
    (by decide) rfl

theorem completedOk_flipTask (now : Nat) (t : Task) : completedOk (flipTask now t) := by
  cases h : t.completed <;> simp [completedOk, flipTask, h]

theorem editTask_none (id : Int) (s : StoreState) : editTask id none s = (s, false) := by
  unfold editTask
  split <;> rfl

theorem editTask_some (id : Int) (newText : String) (s : StoreState) :
    editTask id (some newText) s =
      if s.tasks.any (fun t => t.id = id) then
        (if jsTrim newText = "" then (s, false)
         else ({ s with tasks := editFirst (jsTrim newText) id s.tasks }, true))
      else (s, false) := by
  unfold editTask
  split <;> rfl

theorem mem_toggleFirst (now : Nat) (id : Int) :
    ∀ (ts : List Task), ∀ u ∈ toggleFirst now id ts,
      u ∈ ts ∨ ∃ t ∈ ts, u = flipTask now t := by
  intro ts
  induction ts with
  | nil => simp [toggleFirst]
  | cons t ts ih =>
    intro u hu
    simp only [toggleFirst] at hu
    by_cases h : t.id = id
    · rw [if_pos h] at hu
      rcases List.mem_cons.mp hu with rfl | hu
      · exact Or.inr ⟨t, List.mem_cons_self t ts, rfl⟩
      · exact Or.inl (List.mem_cons_of_mem t hu)
    · rw [if_neg h] at hu
      rcases List.mem_cons.mp hu with rfl | hu
      · exact Or.inl (List.mem_cons_self u ts)
      · rcases ih u hu with h1 | ⟨t', ht', hu'⟩
        · exact Or.inl (List.mem_cons_of_mem t h1)
        · exact Or.inr ⟨t', List.mem_cons_of_mem t ht', hu'⟩

theorem mem_editFirst (txt : String) (id : Int) :
    ∀ (ts : List Task), ∀ u ∈ editFirst txt id ts,
      u ∈ ts ∨ ∃ t ∈ ts, u = { t with text := txt } := by
  intro ts
  induction ts with
  | nil => simp [editFirst]
  | cons t ts ih =>
    intro u hu
    simp only [editFirst] at hu
    by_cases h : t.id = id
    · rw [if_pos h] at hu
      rcases List.mem_cons.mp hu with rfl | hu
      · exact Or.inr ⟨t, List.mem_cons_self t ts, rfl⟩
      · exact Or.inl (List.mem_cons_of_mem t hu)
    · rw [if_neg h] at hu
      rcases List.mem_cons.mp hu with rfl | hu
      · exact Or.inl (List.mem_cons_self u ts)
      · rcases ih u hu with h1 | ⟨t', ht', hu'⟩
        · exact Or.inl (List.mem_cons_of_mem t h1)
        · exact Or.inr ⟨t', List.mem_cons_of_mem t ht', hu'⟩

theorem find?_toggleFirst (now : Nat) (id : Int) :
    ∀ (ts : List Task) (t : Task),
      ts.find? (fun x => decide (x.id = id)) = some t →
      (toggleFirst now id ts).find? (fun x => decide (x.id = id)) =
        some (flipTask now t) := by
  intro ts
  induction ts with
  | nil => intro t ht; simp at ht
  | cons u ts ih =>
    intro t ht
    by_cases h : u.id = id
    · rw [List.find?_cons_of_pos _ (by simpa using h)] at ht
      injection ht with ht
      subst ht
      simp only [toggleFirst, if_pos h]
      exact List.find?_cons_of_pos _ (by simp [flipTask, h])
    · rw [List.find?_cons_of_neg _ (by simpa using h)] at ht
      simp only [toggleFirst, if_neg h]
      rw [List.find?_cons_of_neg _ (by simpa using h)]
      exact ih t ht

/-- C3: the invariant "completedAt is non-null iff completed" is preserved by
every mutation operation (tasks created by `add` satisfy it), and `toggle`
stamps `completedAt` with the current time exactly on a false-to-true flip
and clears it to null exactly on a true-to-false flip. -/
theorem completedAt_iff_completed_invariant :
    (∀ (op : MutOp) (s : StoreState), storeOk s → storeOk (applyOp op s).1) ∧
    (∀ (now : Nat) (id : Int) (ts : List Task) (t : Task),
      ts.find? (fun x => decide (x.id = id)) = some t →
      (toggleFirst now id ts).find? (fun x => decide (x.id = id)) =
        some { t with completed := !t.completed,
                      completedAt := if t.completed then none else some now }) := by
  refine ⟨?_, fun now id ts t ht => find?_toggleFirst now id ts t ht⟩
  intro op s hok
  cases op with
  | add now txt cat =>
    by_cases h : jsTrim txt = ""
    · simpa [applyOp, addTask_of_empty now txt cat s h] using hok
    · intro t ht
      simp only [applyOp, addTask_of_nonempty now txt cat s h] at ht
      rcases List.mem_append.mp ht with h1 | h2
      · exact hok t h1
      · simp only [List.mem_singleton] at h2
        subst h2
        simp [completedOk, freshTask]
  | del confirmed id =>
    intro t ht
    simp only [applyOp, deleteTask] at ht
    by_cases h : confirmed
    · rw [if_pos h] at ht
      exact hok t (List.mem_of_mem_filter ht)
    · rw [if_neg h] at ht
      exact hok t ht
  | toggle now id =>
    intro t ht
    simp only [applyOp, toggleTask] at ht
    by_cases h : s.tasks.any (fun t => decide (t.id = id))
    · rw [if_pos h] at ht
      rcases mem_toggleFirst now id s.tasks t ht with h1 | ⟨t', ht', rfl⟩
      · exact hok t h1
      · exact completedOk_flipTask now t'
    · rw [if_neg h] at ht
      exact hok t ht
  | edit id response =>
    intro t ht
    cases response with
    | none =>
      simp only [applyOp, editTask_none] at ht
      exact hok t ht
    | some newText =>
      simp only [applyOp, editTask_some] at ht
      by_cases h : s.tasks.any (fun t => decide (t.id = id))
      · rw [if_pos h] at ht
        by_cases he : jsTrim newText = ""
        · rw [if_pos he] at ht
          exact hok t ht
        · rw [if_neg he] at ht
          rcases mem_editFirst (jsTrim newText) id s.tasks t ht with h1 | ⟨t', ht', rfl⟩
          · exact hok t h1
          · have := hok t' ht'
            simpa [completedOk] using this
      · rw [if_neg h] at ht
        exact hok t ht
  | clearAll confirmed =>
    intro t ht
    simp only [applyOp, clearAllTasks] at ht
    by_cases h : confirmed
    · rw [if_pos h] at ht
      simp at ht
    · rw [if_neg h] at ht
      exact hok t ht
  | markAllCompleted now =>
    intro t ht
    simp only [applyOp, markAllCompleted] at ht
    by_cases h : (s.tasks.filter (fun t =>
        matchesSearch s.searchQuery t && matchesFilter now s.currentFilter t &&
          !t.completed)).isEmpty
    · rw [if_pos h] at ht
      exact hok t ht
    · rw [if_neg h] at ht
      rcases List.mem_map.mp ht with ⟨t', ht', rfl⟩
      by_cases hx : matchesSearch s.searchQuery t' &&
          matchesFilter now s.currentFilter t' && !t'.completed
      · simp [hx, completedOk]
      · have := hok t' ht'
        simpa [hx] using this
  | deleteCompleted confirmed =>
    intro t ht
    simp only [applyOp, deleteCompleted] at ht
    by_cases h : (s.tasks.filter (fun t => t.completed)).isEmpty
    · rw [if_pos h] at ht
      exact hok t ht
    · rw [if_neg h] at ht
      by_cases hc : confirmed
      · rw [if_pos hc] at ht
        exact hok t (List.mem_of_mem_filter ht)
      · rw [if_neg hc] at ht
        exact hok t ht

/-- Witness for C3: toggling a pending task in a concrete store keeps the
invariant and stamps `completedAt` with the clock value. -/
theorem completedAt_iff_completed_invariant_witness :
    storeOk (applyOp (.toggle 7 1) witState).1 ∧
    (toggleFirst 7 1 witState.tasks).find? (fun x => decide (x.id = 1)) =
      some ⟨1, "Hello", none, none, none, true, 100, some 7⟩ := by
  obtain ⟨h1, h2⟩ := completedAt_iff_completed_invariant
  refine ⟨h1 (.toggle 7 1) witState ?_, ?_⟩
  · intro t ht
    simp only [completedOk]
    fin_cases ht <;> rfl
  · have := h2 7 1 witState.tasks ⟨1, "Hello", none, none, none, false, 100, none⟩
      (by rfl)
    simpa using this

theorem toggleTask_state_of_any (now : Nat) (id : Int) (s : StoreState)
    (h : (s.tasks.any fun t => decide (t.id = id)) = true) :
    (toggleTask now id s).1 = { s with tasks := toggleFirst now id s.tasks } := by
  simp [toggleTask, h]

theorem toggleFirst_eq_setFirst (now : Nat) (id : Int) :
    ∀ ts : List Task, toggleFirst now id ts = setFirst (flipTask now) id ts := by
  intro ts
  induction ts with
  | nil => rfl
  | cons t ts ih =>
    simp only [toggleFirst, setFirst]
    by_cases h : t.id = id
    · simp [h, flipTask]
    · simp [h, ih]

theorem setFirst_setFirst (f g : Task → Task) (id : Int)
    (hg : ∀ t, (g t).id = t.id) :
    ∀ ts : List Task,
      setFirst f id (setFirst g id ts) = setFirst (fun t => f (g t)) id ts := by
  intro ts
  induction ts with
  | nil => rfl
  | cons t ts ih =>
    simp only [setFirst]
    by_cases h : t.id = id
    · rw [if_pos h]
      simp only [setFirst]
      rw [if_pos (by rw [hg t]; exact h), if_pos h]
    · rw [if_neg h]
      simp only [setFirst]
      rw [if_neg h, ih, if_neg h]

theorem setFirst_congr (f g : Task → Task) (id : Int) (h : ∀ t, f t = g t) :
    ∀ ts : List Task, setFirst f id ts = setFirst g id ts := by
  have : f = g := funext h
  intro ts
  rw [this]

theorem setFirst_eq_self (f : Task → Task) (id : Int) :
    ∀ (ts : List Task) (t : Task),
      ts.find? (fun x => decide (x.id = id)) = some t → f t = t →
      setFirst f id ts = ts := by
  intro ts
  induction ts with
  | nil => intro t ht _; simp at ht
  | cons u ts ih =>
    intro t ht hf
    by_cases h : u.id = id
    · rw [List.find?_cons_of_pos _ (by simpa using h)] at ht
      injection ht with ht
      subst ht
      simp only [setFirst, if_pos h, hf]
    · rw [List.find?_cons_of_neg _ (by simpa using h)] at ht
      simp only [setFirst, if_neg h]
      rw [ih t ht hf]

theorem flipTask_flipTask (now₁ now₂ : Nat) (t : Task) :
    flipTask now₂ (flipTask now₁ t) =
      { t with completedAt := if t.completed then some now₂ else none } := by
  obtain ⟨tid, ttext, tcat, tpr, tdd, tcomp, tcr, tca⟩ := t
  cases tcomp <;> simp [flipTask]

/-- C4 counterexample: a task that is initially completed with
`completedAt = 5`, toggled twice (at times 10 and 20), ends with
`completedAt = 20`, so the store is not returned to its original state. -/
theorem toggle_twice_not_involution :
    (toggleTask 20 1 (toggleTask 10 1
        ⟨[⟨1, "a", none, none, none, true, 0, some 5⟩], 2, "all", "created-desc", ""⟩).1).1.tasks =
      [⟨1, "a", none, none, none, true, 0, some 20⟩] ∧
    (toggleTask 20 1 (toggleTask 10 1
        ⟨[⟨1, "a", none, none, none, true, 0, some 5⟩], 2, "all", "created-desc", ""⟩).1).1 ≠
      ⟨[⟨1, "a", none, none, none, true, 0, some 5⟩], 2, "all", "created-desc", ""⟩ := by
  decide

/-- C4 (amended): toggling a present task twice always restores its
`completed` flag, and restores the full store state when the task was
initially pending (`completed = false`, `completedAt = null`); when the task
was initially completed, `completedAt` ends as the time of the second
toggle rather than its original value. -/
theorem toggle_twice_amended (now₁ now₂ : Nat) (id : Int) (s : StoreState) (t : Task)
    (hfind : s.tasks.find? (fun x => decide (x.id = id)) = some t) :
    (∃ t', ((toggleTask now₂ id (toggleTask now₁ id s).1).1).tasks.find?
        (fun x => decide (x.id = id)) = some t' ∧
      t'.completed = t.completed ∧
      t'.completedAt = (if t.completed then some now₂ else none)) ∧
    (t.completed = false → t.completedAt = none →
      (toggleTask now₂ id (toggleTask now₁ id s).1).1 = s) := by
  have hmem := List.mem_of_find?_eq_some hfind
  have hp := List.find?_some hfind
  have hany : (s.tasks.any fun x => decide (x.id = id)) = true :=
    List.any_eq_true.mpr ⟨t, hmem, hp⟩
  have hfind1 : (toggleFirst now₁ id s.tasks).find? (fun x => decide (x.id = id)) =
      some (flipTask now₁ t) := find?_toggleFirst now₁ id s.tasks t hfind
  have hany1 : (({ s with tasks := toggleFirst now₁ id s.tasks }).tasks.any
      fun x => decide (x.id = id)) = true := by
    refine List.any_eq_true.mpr ⟨flipTask now₁ t, List.mem_of_find?_eq_some hfind1, ?_⟩
    exact hp
  have e2 : (toggleTask now₂ id (toggleTask now₁ id s).1).1 =
      { s with tasks := toggleFirst now₂ id (toggleFirst now₁ id s.tasks) } := by
    rw [toggleTask_state_of_any now₁ id s hany,
      toggleTask_state_of_any now₂ id _ hany1]
  have hfind2 : (toggleFirst now₂ id (toggleFirst now₁ id s.tasks)).find?
      (fun x => decide (x.id = id)) = some (flipTask now₂ (flipTask now₁ t)) :=
    find?_toggleFirst now₂ id _ _ hfind1
  refine ⟨⟨flipTask now₂ (flipTask now₁ t), ?_, ?_, ?_⟩, ?_⟩
  · rw [e2]
    exact hfind2
  · rw [flipTask_flipTask]
  · rw [flipTask_flipTask]
  · intro hc hca
    have hflip : (fun u => flipTask now₂ (flipTask now₁ u)) t = t := by
      show flipTask now₂ (flipTask now₁ t) = t
      rw [flipTask_flipTask]
      obtain ⟨tid, ttext, tcat, tpr, tdd, tcomp, tcr, tca⟩ := t
      simp only at hc hca
      subst hc
      subst hca
      rfl
    have hres : toggleFirst now₂ id (toggleFirst now₁ id s.tasks) = s.tasks := by
      rw [toggleFirst_eq_setFirst, toggleFirst_eq_setFirst,
        setFirst_setFirst (flipTask now₂) (flipTask now₁) id (fun u => rfl)]
      exact setFirst_eq_self _ _ s.tasks t hfind hflip
    rw [e2, hres]

/-- Witness for the amended C4 at a concrete pending task. -/
theorem toggle_twice_amended_witness :
    (∃ t', ((toggleTask 9 3 (toggleTask 8 3 witState).1).1).tasks.find?
        (fun x => decide (x.id = 3)) = some t' ∧
      t'.completed = false ∧ t'.completedAt = none) ∧
    (toggleTask 9 3 (toggleTask 8 3 witState).1).1 = witState := by
  obtain ⟨⟨t', h1, h2, h3⟩, h4⟩ := toggle_twice_amended 8 9 3 witState
    ⟨3, "mid", none, none, none, false, 50, none⟩ (by decide)
  exact ⟨⟨t', h1, h2, h3⟩, h4 rfl rfl⟩

theorem toggleFirst_frame (now : Nat) (id : Int) :
    ∀ ts : List Task,
      List.Forall₂ (fun a b => sameFrame a b ∧ (¬ a.id = id → b = a))
        ts (toggleFirst now id ts) := by
  intro ts
  induction ts with
  | nil => simp [toggleFirst]
  | cons t ts ih =>
    simp only [toggleFirst]
    by_cases h : t.id = id
    · rw [if_pos h]
      refine List.Forall₂.cons ⟨⟨rfl, rfl, rfl, rfl, rfl, rfl⟩, fun hne => absurd h hne⟩ ?_
      exact List.forall₂_same.mpr (fun x _ => ⟨⟨rfl, rfl, rfl, rfl, rfl, rfl⟩, fun _ => rfl⟩)
    · rw [if_neg h]
      exact List.Forall₂.cons ⟨⟨rfl, rfl, rfl, rfl, rfl, rfl⟩, fun _ => rfl⟩ ih

/-- C9: toggling a present task changes at most the `completed` and
`completedAt` fields of the task with that id; its other fields, every field
of every task with a different id, the counter, and the view configuration
are unchanged. -/
theorem toggle_frame (now : Nat) (id : Int) (s : StoreState)
    (h : (s.tasks.any fun t => decide (t.id = id)) = true) :
    (toggleTask now id s).1.taskIdCounter = s.taskIdCounter ∧
    (toggleTask now id s).1.currentFilter = s.currentFilter ∧
    (toggleTask now id s).1.currentSort = s.currentSort ∧
    (toggleTask now id s).1.searchQuery = s.searchQuery ∧
    List.Forall₂ (fun a b => sameFrame a b ∧ (¬ a.id = id → b = a))
      s.tasks (toggleTask now id s).1.tasks := by
  rw [toggleTask_state_of_any now id s h]
  exact ⟨rfl, rfl, rfl, rfl, toggleFirst_frame now id s.tasks⟩

/-- Witness for C9 at a concrete store and id. -/
theorem toggle_frame_witness :
    (toggleTask 7 1 witState).1.taskIdCounter = witState.taskIdCounter ∧
    (toggleTask 7 1 witState).1.currentFilter = witState.currentFilter ∧
    (toggleTask 7 1 witState).1.currentSort = witState.currentSort ∧
    (toggleTask 7 1 witState).1.searchQuery = witState.searchQuery ∧
    List.Forall₂ (fun a b => sameFrame a b ∧ (¬ a.id = 1 → b = a))
      witState.tasks (toggleTask 7 1 witState).1.tasks :=
  toggle_frame 7 1 witState (by decide)

theorem jsToLower_eq_empty_iff (s : String) : jsToLower s = "" ↔ s = "" := by
  obtain ⟨data⟩ := s
  constructor
  · intro h
    have h2 : List.map Char.toLower data = [] := congrArg String.data h
    cases data with
    | nil => rfl
    | cons c cs => simp at h2
  · intro h
    rw [h]
    rfl

/-- C7 counterexample: the search handler stores the lowercased but
untrimmed query, so the whitespace-only query " " fails to match the task
text "Hello", while the claim's trimmed reading says it matches every task. -/
theorem search_trim_counterexample :
    matchesSearch (setSearchQuery " " witState).searchQuery
      ⟨1, "Hello", none, none, none, false, 100, none⟩ = false ∧
    specSearchMatch " " ⟨1, "Hello", none, none, none, false, 100, none⟩ = true := by
  decide

/-- C7 (amended): after the search handler stores a raw query, a task
matches iff the raw query is empty, or the lowercased raw query occurs as a
substring of the lowercased task text; the query is lowercased but never
trimmed, so whitespace in the query is significant. -/
theorem matchesSearch_amended (raw : String) (t : Task) (s : StoreState) :
    matchesSearch (setSearchQuery raw s).searchQuery t =
      (decide (raw = "") || strIncludes (jsToLower t.text) (jsToLower raw)) := by
  by_cases h : raw = ""
  · subst h
    simp [matchesSearch, setSearchQuery, show jsToLower "" = "" from rfl]
  · have h2 : jsToLower raw ≠ "" := fun hh => h ((jsToLower_eq_empty_iff raw).mp hh)
    simp [matchesSearch, setSearchQuery, h, h2]

/-- C10: any filter string other than the four recognized ones makes the
status predicate constantly true, so the filtered set degenerates to the
tasks matching the search query alone, exactly as with filter 'all'. -/
theorem unrecognized_filter_behaves_like_all (filter : String)
    (h1 : filter ≠ "all") (h2 : filter ≠ "completed")
    (h3 : filter ≠ "pending") (h4 : filter ≠ "recent") :
    (∀ (now : Nat) (t : Task), matchesFilter now filter t = true) ∧
    (∀ (now : Nat) (s : StoreState), s.currentFilter = filter →
      getFilteredTasks now s = s.tasks.filter (fun t => matchesSearch s.searchQuery t)) := by
  have hm : ∀ (now : Nat) (t : Task), matchesFilter now filter t = true := by
    intro now t
    simp [matchesFilter, h1, h2, h3, h4]
  refine ⟨hm, ?_⟩
  intro now s hs
  unfold getFilteredTasks
  apply List.filter_congr
  intro x _
  rw [hs, hm now x, Bool.and_true]

/-- Witness for C10 at the concrete unrecognized filter "banana". -/
theorem unrecognized_filter_behaves_like_all_witness :
    matchesFilter 0 "banana" (⟨1, "Hello", none, none, none, false, 100, none⟩ : Task) = true ∧
    getFilteredTasks 0 { witState with currentFilter := "banana" } =
      ({ witState with currentFilter := "banana" }).tasks.filter
        (fun t => matchesSearch ({ witState with currentFilter := "banana" }).searchQuery t) := by
  obtain ⟨hm, hf⟩ := unrecognized_filter_behaves_like_all "banana"
    (by decide) (by decide) (by decide) (by decide)
  exact ⟨hm 0 _, hf 0 _ rfl⟩

/-- C8: with filter 'all', sort key 'created-desc', and an empty search
query, the derived view is a permutation of the whole collection (it
contains every task), is ordered newest `createdAt` first, and computing the
view leaves the store state untouched. -/
theorem view_all_newest_first (now : Nat) (s : StoreState)
    (hf : s.currentFilter = "all") (hk : s.currentSort = "created-desc")
    (hq : s.searchQuery = "") :
    (getView now s).Perm s.tasks ∧
    (getView now s).Pairwise (fun a b => b.createdAt ≤ a.createdAt) ∧
    (getViewOp now s).2 = s := by
  have hfil : getFilteredTasks now s = s.tasks := by
    unfold getFilteredTasks
    rw [hf, hq]
    have hall : ∀ x ∈ s.tasks,
        (matchesSearch "" x && matchesFilter now "all" x) = (true : Bool) := by
      intro x _
      simp [matchesSearch, matchesFilter]
    rw [List.filter_congr hall, List.filter_true]
  have hview : getView now s = jsSortBy cmpCreatedDesc s.tasks := by
    unfold getView getSortedTasks
    rw [hk, hfil]
    simp
  have htrans : ∀ a b c : Task, decide (cmpCreatedDesc a b ≤ 0) = true →
      decide (cmpCreatedDesc b c ≤ 0) = true → decide (cmpCreatedDesc a c ≤ 0) = true := by
    intro a b c hab hbc
    have hab' := of_decide_eq_true hab
    have hbc' := of_decide_eq_true hbc
    unfold cmpCreatedDesc at hab' hbc' ⊢
    exact decide_eq_true (by omega)
  have htotal : ∀ a b : Task,
      (decide (cmpCreatedDesc a b ≤ 0) || decide (cmpCreatedDesc b a ≤ 0)) = true := by
    intro a b
    simp only [Bool.or_eq_true, decide_eq_true_eq]
    unfold cmpCreatedDesc
    omega
  refine ⟨?_, ?_, rfl⟩
  · rw [hview]
    exact List.mergeSort_perm s.tasks _
  · rw [hview]
    have hs := @List.sorted_mergeSort Task
      (fun a b => decide (cmpCreatedDesc a b ≤ 0)) htrans htotal s.tasks
    refine List.Pairwise.imp ?_ hs
    intro a b hab
    have := of_decide_eq_true hab
    unfold cmpCreatedDesc at this
    omega

/-- Witness for C8 at a concrete store. -/
theorem view_all_newest_first_witness :
    (getView 0 witState).Perm witState.tasks ∧
    (getView 0 witState).Pairwise (fun a b => b.createdAt ≤ a.createdAt) ∧
    (getViewOp 0 witState).2 = witState :=
  view_all_newest_first 0 witState rfl rfl rfl

end TaskFlow
